import Mathlib

/-
Verification of the sample user-service module (samples/sample.py).

The module's behaviour is embedded shallowly:
  - Python machine-level ints are unbounded, so they become Int;
  - the email regex of User._is_valid_email is rendered as an executable
    matcher over lists of characters, together with a declarative
    decomposition predicate proved equivalent to it;
  - datetime values are opaque tokens carrying their isoformat rendering;
  - the insertion-ordered dict used as the service cache becomes an
    association list with first-match lookup and replace-in-place update;
  - code that can raise returns Except, code that prints returns the list
    of printed lines alongside its value, and the nondeterministic outcome
    of the simulated network call inside fetch_by_id (success, timeout, or
    some other raised exception) is an explicit event parameter.
-/

set_option maxHeartbeats 1000000

namespace Sample

/-- Character class of the regex token backslash-s as the re module reads it
for text patterns: ASCII whitespace, the separator control characters, NEL,
NBSP and the Unicode space code points. -/
def isPySpace (c : Char) : Bool :=
  let n := c.toNat
  n == 0x20 || n == 0x09 || n == 0x0a || n == 0x0d || n == 0x0b || n == 0x0c ||
  (0x1c ≤ n && n ≤ 0x1f) || n == 0x85 || n == 0xa0 || n == 0x1680 ||
  (0x2000 ≤ n && n ≤ 0x200a) || n == 0x2028 || n == 0x2029 || n == 0x202f ||
  n == 0x205f || n == 0x3000

/-- Character class of the bracket expression in the validation pattern:
any character that is neither whitespace nor the at sign. -/
def isEmailChar (c : Char) : Bool :=
  !(isPySpace c) && !(c == '@')

/-- Matcher for one plus-repetition of the email character class consuming
the whole list: a nonempty run of email characters. -/
def plusEmail : List Char → Bool
  | [] => false
  | c :: rest => isEmailChar c && rest.all isEmailChar

/-- Matcher for the trailing regex fragment: a possibly empty run of email
characters, a literal dot, then a nonempty run of email characters,
consuming the whole list.  The disjunction mirrors the backtracking choice
of ending the preceding plus-repetition at the current character. -/
def tailMatch : List Char → Bool
  | [] => false
  | c :: rest =>
    (c == '.' && plusEmail rest) ||
    (isEmailChar c && tailMatch rest)

/-- Matcher for the part of the pattern after the at sign: a nonempty run of
email characters, a literal dot, then a nonempty run of email characters. -/
def matchAfterAt : List Char → Bool
  | [] => false
  | c :: rest => isEmailChar c && tailMatch rest

/-- Matcher for the rest of the pattern once at least one local-part
character has been consumed: either the at sign arrives now, or one more
email character is consumed.  The two classes are disjoint, so this is
exactly the behaviour of the regex engine. -/
def auxAt : List Char → Bool
  | [] => false
  | c :: rest => (c == '@' && matchAfterAt rest) || (isEmailChar c && auxAt rest)

/-- Matcher for the full anchored pattern of User._is_valid_email without
the end-of-string allowance: a nonempty run of email characters, an at sign,
a nonempty run, a dot, a nonempty run, consuming the whole list. -/
def matchCore : List Char → Bool
  | [] => false
  | c :: rest => isEmailChar c && auxAt rest

/-- Semantics of re.match for this pattern.  The dollar anchor of the re
module matches at the end of the string and also just before a newline that
ends the string, so the pattern may consume the whole string or the whole
string minus a single trailing newline. -/
def reMatch (cs : List Char) : Bool :=
  matchCore cs || (cs.getLast? == some '\n' && matchCore cs.dropLast)

/-- Declarative reading of the pattern exactly as the specification words
it: one or more non-space non-at characters, an at sign, one or more
non-space non-at characters, a dot, one or more non-space non-at
characters — and nothing else. -/
def EmailShape (cs : List Char) : Prop :=
  ∃ x y z : List Char, x ≠ [] ∧ y ≠ [] ∧ z ≠ [] ∧
    (∀ c ∈ x, isEmailChar c = true) ∧
    (∀ c ∈ y, isEmailChar c = true) ∧
    (∀ c ∈ z, isEmailChar c = true) ∧
    cs = x ++ '@' :: (y ++ '.' :: z)

/-- Role enum of the module; auto() numbering is irrelevant to every claim,
the name attribute is kept. -/
inductive UserRole
  | ADMIN
  | USER
  | GUEST
deriving DecidableEq

def UserRole.name : UserRole → String
  | .ADMIN => "ADMIN"
  | .USER => "USER"
  | .GUEST => "GUEST"

/-- Values stored in the string-keyed dictionaries of the module (metadata
entries and the result of to_dict). -/
inductive PyValue
  | pyInt (i : Int)
  | pyStr (s : String)
deriving DecidableEq

/-- Opaque stand-in for a datetime value: only its isoformat rendering is
ever observed by the module. -/
structure DateTime where
  iso : String
deriving DecidableEq

def DateTime.isoformat (d : DateTime) : String := d.iso

/-- The User dataclass: identifier, name, email, role, free-form metadata,
creation timestamp. -/
structure User where
  id : Int
  name : String
  email : String
  role : UserRole
  metadata : List (String × PyValue)
  created_at : DateTime
deriving DecidableEq

/-- The static email validator: bool(re.match(pattern, email)). -/
def User._is_valid_email (email : String) : Bool :=
  reMatch email.data

/-- The dataclass hook that runs right after field assignment: it raises
ValueError on a malformed email and otherwise leaves the record as built. -/
def User.__post_init__ (u : User) : Except String User :=
  if User._is_valid_email u.email then Except.ok u
  else Except.error ("Invalid email: " ++ u.email)

/-- Construction of a User value: field assignment followed by the
after-construction validation hook. -/
def User.make (id : Int) (name email : String) (role : UserRole)
    (metadata : List (String × PyValue)) (created_at : DateTime) :
    Except String User :=
  User.__post_init__ (User.mk id name email role metadata created_at)

/-- Dictionary rendering of a User, in the order the source writes the
entries. -/
def User.to_dict (u : User) : List (String × PyValue) :=
  [("id", PyValue.pyInt u.id),
   ("name", PyValue.pyStr u.name),
   ("email", PyValue.pyStr u.email),
   ("role", PyValue.pyStr u.role.name),
   ("created_at", PyValue.pyStr u.created_at.isoformat)]

/-- Lookup in an insertion-ordered dictionary with unique keys, rendered as
first-match search in an association list (dict.get returning None when the
key is absent). -/
def dictGet {β : Type} : List (Int × β) → Int → Option β
  | [], _ => none
  | p :: rest, k => if p.1 == k then some p.2 else dictGet rest k

/-- Item assignment in an insertion-ordered dictionary: replace the value
in place when the key is present, append the pair otherwise. -/
def dictSet {β : Type} : List (Int × β) → Int → β → List (Int × β)
  | [], k, v => [(k, v)]
  | p :: rest, k, v => if p.1 == k then (k, v) :: rest else p :: dictSet rest k v

/-- Key list of the dictionary, in insertion order. -/
def dictKeys {β : Type} (d : List (Int × β)) : List Int :=
  d.map Prod.fst

/-- State of the concrete user service.  BaseService contributes the
endpoint and the cache dictionary; the unused _session field of UserService
is omitted because it is never read or written after construction. -/
structure UserService where
  endpoint : String
  cache : List (Int × User)
deriving DecidableEq

/-- UserService(): the BaseService constructor with endpoint "/users" and
an empty cache. -/
def UserService.init : UserService :=
  { endpoint := "/users", cache := [] }

/-- BaseService._get_cache on the concrete service. -/
def UserService._get_cache (s : UserService) (id : Int) : Option User :=
  dictGet s.cache id

/-- BaseService._set_cache on the concrete service. -/
def UserService._set_cache (s : UserService) (id : Int) (item : User) : UserService :=
  { s with cache := dictSet s.cache id item }

/-- Outcome of the simulated network call inside fetch_by_id: the awaited
body runs to completion, or asyncio.TimeoutError is raised, or some other
exception carrying a message is raised. -/
inductive FetchEvent
  | success
  | timeout
  | failure (msg : String)
deriving DecidableEq

/-- UserService.fetch_by_id.  Returns the new service state, the optional
user, and the lines printed by the method body itself (the prints of the
logged decorator wrap every call identically and are not modelled).  A
cached user is returned at once — a User object is always truthy, so the
walrus test takes the cached branch exactly when the lookup is not None.
On a cache miss the simulated call either times out, raises, or builds the
mock user; a ValueError from the mock construction would be caught by the
generic except clause. -/
def UserService.fetch_by_id (s : UserService) (id : Int) (ev : FetchEvent)
    (now : DateTime) : UserService × Option User × List String :=
  match UserService._get_cache s id with
  | some cached => (s, some cached, [])
  | none =>
    match ev with
    | FetchEvent.timeout => (s, none, ["Timeout fetching user " ++ toString id])
    | FetchEvent.failure e => (s, none, ["Error fetching user " ++ toString id ++ ": " ++ e])
    | FetchEvent.success =>
      match User.make id ("User " ++ toString id) ("user" ++ toString id ++ "@example.com")
          UserRole.USER [] now with
      | Except.ok user => (UserService._set_cache s id user, some user, [])
      | Except.error e => (s, none, ["Error fetching user " ++ toString id ++ ": " ++ e])

/-- UserService.create_user: the fresh identifier is len(cache) + 1, the
User constructor may raise ValueError, and on success the user is stored
under the fresh identifier and returned. -/
def UserService.create_user (s : UserService) (name email : String)
    (role : UserRole) (now : DateTime) : Except String (UserService × User) :=
  let new_id : Int := (s.cache.length : Int) + 1
  match User.make new_id name email role [] now with
  | Except.ok user => Except.ok (UserService._set_cache s new_id user, user)
  | Except.error e => Except.error e

/-- UserService.get_users_by_role: the list comprehension over the cache's
values filtered by role equality. -/
def UserService.get_users_by_role (s : UserService) (role : UserRole) : List User :=
  (s.cache.map Prod.snd).filter (fun u => u.role == role)

/-- One call against the service, for stating cache-evolution invariants. -/
inductive ServiceOp
  | opGetCache (id : Int)
  | opSetCache (id : Int) (u : User)
  | opFetch (id : Int) (ev : FetchEvent) (now : DateTime)
  | opCreate (name email : String) (role : UserRole) (now : DateTime)
  | opGetByRole (role : UserRole)

/-- State transition of one service call; reads leave the state alone, and
a create that raises leaves the cache untouched. -/
def applyOp (s : UserService) : ServiceOp → UserService
  | ServiceOp.opGetCache _ => s
  | ServiceOp.opSetCache i u => UserService._set_cache s i u
  | ServiceOp.opFetch i ev now => (UserService.fetch_by_id s i ev now).1
  | ServiceOp.opCreate nm em r now =>
    match UserService.create_user s nm em r now with
    | Except.ok su => su.1
    | Except.error _ => s
  | ServiceOp.opGetByRole _ => s

/-- Sequential execution of service calls. -/
def applyOps (s : UserService) (ops : List ServiceOp) : UserService :=
  ops.foldl applyOp s

/-- Arguments of one create_user call. -/
structure Creation where
  cname : String
  cemail : String
  crole : UserRole
  ctime : DateTime
deriving DecidableEq

/-- Sequential create_user calls, recording each outcome; a raised
ValueError leaves the state unchanged for the following calls. -/
def runCreates : UserService → List Creation → UserService × List (Except String User)
  | s, [] => (s, [])
  | s, c :: rest =>
    match UserService.create_user s c.cname c.cemail c.crole c.ctime with
    | Except.ok su =>
      ((runCreates su.1 rest).1, Except.ok su.2 :: (runCreates su.1 rest).2)
    | Except.error e =>
      ((runCreates s rest).1, Except.error e :: (runCreates s rest).2)

/-- State of one debounced wrapper: the captured last_call cell, initially
zero. -/
structure DebounceState where
  last_call : Rat
deriving DecidableEq

def debounce_init : DebounceState := { last_call := 0 }

/-- One call of the wrapper produced by the debounce decorator: when the
current time is at least delay seconds past the recorded last call the
wrapped function runs and the call time is recorded, otherwise nothing runs
and the wrapper returns None. -/
def debounce_call {α β : Type} (delay : Rat) (f : α → β) (st : DebounceState)
    (now : Rat) (x : α) : DebounceState × Option β :=
  if now - st.last_call ≥ delay then ({ last_call := now }, some (f x))
  else (st, none)

/-- The DatabaseConnection context manager: a connection string and the
_connection attribute, which is assigned None in the constructor and never
reassigned. -/
structure DatabaseConnection where
  connection_string : String
  _connection : Option Unit
deriving DecidableEq

def DatabaseConnection.init (connection_string : String) : DatabaseConnection :=
  { connection_string := connection_string, _connection := none }

/-- Entering the async context: prints one line and returns self. -/
def DatabaseConnection.__aenter__ (d : DatabaseConnection) :
    DatabaseConnection × List String :=
  (d, ["Connecting to " ++ d.connection_string])

/-- Leaving the async context: prints one line and returns False whatever
exception triple is passed, so no exception is ever suppressed. -/
def DatabaseConnection.__aexit__ (d : DatabaseConnection)
    (exc_type exc_val exc_tb : Option String) : Bool × List String :=
  (false, ["Closing database connection"])

/-! Equivalence of the executable regex matcher with the declarative
decomposition of the pattern. -/

theorem plusEmail_iff (l : List Char) :
    plusEmail l = true ↔ l ≠ [] ∧ ∀ c ∈ l, isEmailChar c = true := by
  cases l with
  | nil => simp [plusEmail]
  | cons c rest =>
    simp [plusEmail, Bool.and_eq_true, List.all_eq_true, List.forall_mem_cons]

theorem tailMatch_iff (l : List Char) :
    tailMatch l = true ↔
    ∃ y z : List Char, z ≠ [] ∧ (∀ c ∈ y, isEmailChar c = true) ∧
      (∀ c ∈ z, isEmailChar c = true) ∧ l = y ++ '.' :: z := by
  induction l with
  | nil =>
    constructor
    · intro h; simp [tailMatch] at h
    · rintro ⟨y, z, -, -, -, h⟩
      exact absurd h.symm (by simp)
  | cons c rest ih =>
    constructor
    · intro h
      simp only [tailMatch, Bool.or_eq_true, Bool.and_eq_true, beq_iff_eq] at h
      rcases h with ⟨hc, hplus⟩ | ⟨hc, htail⟩
      · obtain ⟨hne, hall⟩ := (plusEmail_iff rest).mp hplus
        exact ⟨[], rest, hne, by simp, hall, by simp [hc]⟩
      · obtain ⟨y, z, hz, hy, hzall, heq⟩ := ih.mp htail
        refine ⟨c :: y, z, hz, ?_, hzall, by simp [heq]⟩
        intro e he
        rcases List.mem_cons.mp he with h1 | h1
        · rw [h1]; exact hc
        · exact hy e h1
    · rintro ⟨y, z, hz, hy, hzall, heq⟩
      cases y with
      | nil =>
        simp only [List.nil_append] at heq
        injection heq with h1 h2
        simp only [tailMatch, Bool.or_eq_true, Bool.and_eq_true, beq_iff_eq]
        refine Or.inl ⟨h1, ?_⟩
        rw [h2]
        exact (plusEmail_iff z).mpr ⟨hz, hzall⟩
      | cons d y' =>
        simp only [List.cons_append] at heq
        injection heq with h1 h2
        simp only [tailMatch, Bool.or_eq_true, Bool.and_eq_true, beq_iff_eq]
        refine Or.inr ⟨?_, ?_⟩
        · rw [h1]; exact hy d (List.mem_cons_self d y')
        · exact ih.mpr ⟨y', z, hz, fun e he => hy e (List.mem_cons_of_mem d he), hzall, h2⟩

theorem matchAfterAt_iff (l : List Char) :
    matchAfterAt l = true ↔
    ∃ y z : List Char, y ≠ [] ∧ z ≠ [] ∧ (∀ c ∈ y, isEmailChar c = true) ∧
      (∀ c ∈ z, isEmailChar c = true) ∧ l = y ++ '.' :: z := by
  cases l with
  | nil =>
    constructor
    · intro h; simp [matchAfterAt] at h
    · rintro ⟨y, z, -, -, -, -, h⟩
      exact absurd h.symm (by simp)
  | cons c rest =>
    constructor
    · intro h
      simp only [matchAfterAt, Bool.and_eq_true] at h
      obtain ⟨hc, htail⟩ := h
      obtain ⟨y, z, hz, hy, hzall, heq⟩ := (tailMatch_iff rest).mp htail
      refine ⟨c :: y, z, List.cons_ne_nil c y, hz, ?_, hzall, by simp [heq]⟩
      intro e he
      rcases List.mem_cons.mp he with h1 | h1
      · rw [h1]; exact hc
      · exact hy e h1
    · rintro ⟨y, z, hyne, hz, hy, hzall, heq⟩
      cases y with
      | nil => exact absurd rfl hyne
      | cons d y' =>
        simp only [List.cons_append] at heq
        injection heq with h1 h2
        simp only [matchAfterAt, Bool.and_eq_true]
        refine ⟨?_, ?_⟩
        · rw [h1]; exact hy d (List.mem_cons_self d y')
        · exact (tailMatch_iff _).mpr
            ⟨y', z, hz, fun e he => hy e (List.mem_cons_of_mem d he), hzall, h2⟩

theorem auxAt_iff (l : List Char) :
    auxAt l = true ↔
    ∃ w r : List Char, (∀ c ∈ w, isEmailChar c = true) ∧ matchAfterAt r = true ∧
      l = w ++ '@' :: r := by
  induction l with
  | nil =>
    constructor
    · intro h; simp [auxAt] at h
    · rintro ⟨w, r, -, -, h⟩
      exact absurd h.symm (by simp)
  | cons c rest ih =>
    constructor
    · intro h
      simp only [auxAt, Bool.or_eq_true, Bool.and_eq_true, beq_iff_eq] at h
      rcases h with ⟨hc, hafter⟩ | ⟨hc, haux⟩
      · exact ⟨[], rest, by simp, hafter, by simp [hc]⟩
      · obtain ⟨w, r, hw, hafter, heq⟩ := ih.mp haux
        refine ⟨c :: w, r, ?_, hafter, by simp [heq]⟩
        intro e he
        rcases List.mem_cons.mp he with h1 | h1
        · rw [h1]; exact hc
        · exact hw e h1
    · rintro ⟨w, r, hw, hafter, heq⟩
      cases w with
      | nil =>
        simp only [List.nil_append] at heq
        injection heq with h1 h2
        simp only [auxAt, Bool.or_eq_true, Bool.and_eq_true, beq_iff_eq]
        refine Or.inl ⟨h1, ?_⟩
        rw [h2]
        exact hafter
      | cons d w' =>
        simp only [List.cons_append] at heq
        injection heq with h1 h2
        simp only [auxAt, Bool.or_eq_true, Bool.and_eq_true, beq_iff_eq]
        refine Or.inr ⟨?_, ?_⟩
        · rw [h1]; exact hw d (List.mem_cons_self d w')
        · exact ih.mpr ⟨w', r, fun e he => hw e (List.mem_cons_of_mem d he), hafter, h2⟩

theorem matchCore_iff (cs : List Char) : matchCore cs = true ↔ EmailShape cs := by
  cases cs with
  | nil =>
    constructor
    · intro h; simp [matchCore] at h
    · rintro ⟨x, y, z, -, -, -, -, -, -, h⟩
      exact absurd h (by simp)
  | cons c rest =>
    constructor
    · intro h
      simp only [matchCore, Bool.and_eq_true] at h
      obtain ⟨hc, haux⟩ := h
      obtain ⟨w, r, hw, hafter, heq⟩ := (auxAt_iff rest).mp haux
      obtain ⟨y, z, hyne, hzne, hy, hz, heq2⟩ := (matchAfterAt_iff r).mp hafter
      refine ⟨c :: w, y, z, List.cons_ne_nil c w, hyne, hzne, ?_, hy, hz, ?_⟩
      · intro e he
        rcases List.mem_cons.mp he with h1 | h1
        · rw [h1]; exact hc
        · exact hw e h1
      · simp [heq, heq2]
    · rintro ⟨x, y, z, hxne, hyne, hzne, hx, hy, hz, heq⟩
      cases x with
      | nil => exact absurd rfl hxne
      | cons d x' =>
        simp only [List.cons_append] at heq
        injection heq with h1 h2
        simp only [matchCore, Bool.and_eq_true]
        refine ⟨?_, ?_⟩
        · rw [h1]; exact hx d (List.mem_cons_self d x')
        · refine (auxAt_iff _).mpr ⟨x', y ++ '.' :: z,
            fun e he => hx e (List.mem_cons_of_mem d he), ?_, h2⟩
          exact (matchAfterAt_iff _).mpr ⟨y, z, hyne, hzne, hy, hz, rfl⟩

/-- The validator accepts exactly the strings whose characters decompose as
the pattern, possibly after discarding one trailing newline (the dollar
anchor of the re module also matches just before a newline that ends the
string). -/
theorem valid_email_iff (email : String) :
    User._is_valid_email email = true ↔
    (EmailShape email.data ∨
      (email.data.getLast? = some '\n' ∧ EmailShape email.data.dropLast)) := by
  simp only [User._is_valid_email, reMatch, Bool.or_eq_true, Bool.and_eq_true,
    beq_iff_eq, matchCore_iff]

/-! Lemmas about the association-list rendering of the cache dictionary. -/

theorem dictGet_dictSet_self {β : Type} (d : List (Int × β)) (k : Int) (v : β) :
    dictGet (dictSet d k v) k = some v := by
  induction d with
  | nil => simp [dictGet, dictSet]
  | cons p rest ih =>
    by_cases h : p.1 = k
    · simp [dictSet, dictGet, h, beq_iff_eq]
    · simp [dictSet, dictGet, h, beq_iff_eq, ih]

theorem dictKeys_dictSet_iff {β : Type} (d : List (Int × β)) (k k' : Int) (v : β) :
    k' ∈ dictKeys (dictSet d k v) ↔ k' ∈ dictKeys d ∨ k' = k := by
  induction d with
  | nil => simp [dictKeys, dictSet]
  | cons p rest ih =>
    by_cases hp : p.1 = k
    · simp only [dictSet, hp, beq_iff_eq, if_true, beq_self_eq_true, dictKeys,
        List.map_cons, List.mem_cons, if_pos]
      tauto
    · simp only [dictSet, beq_iff_eq, if_neg hp, dictKeys, List.map_cons,
        List.mem_cons]
      have : k' ∈ dictKeys (dictSet rest k v) ↔ k' ∈ dictKeys rest ∨ k' = k := ih
      simp only [dictKeys] at this
      rw [this]
      tauto

theorem dictGet_eq_none_iff {β : Type} (d : List (Int × β)) (k : Int) :
    dictGet d k = none ↔ k ∉ dictKeys d := by
  induction d with
  | nil => simp [dictGet, dictKeys]
  | cons p rest ih =>
    by_cases hp : p.1 = k
    · simp [dictGet, hp, dictKeys, beq_iff_eq]
    · simp [dictGet, hp, dictKeys, beq_iff_eq, ih, Ne.symm hp]

theorem dictSet_length_of_none {β : Type} (d : List (Int × β)) (k : Int) (v : β)
    (h : dictGet d k = none) : (dictSet d k v).length = d.length + 1 := by
  induction d with
  | nil => simp [dictSet]
  | cons p rest ih =>
    by_cases hp : p.1 = k
    · simp [dictGet, hp, beq_iff_eq] at h
    · simp only [dictGet, beq_iff_eq, if_neg hp] at h
      simp [dictSet, beq_iff_eq, if_neg hp, ih h]

theorem dictSet_length_of_some {β : Type} (d : List (Int × β)) (k : Int) (v u : β)
    (h : dictGet d k = some u) : (dictSet d k v).length = d.length := by
  induction d with
  | nil => simp [dictGet] at h
  | cons p rest ih =>
    by_cases hp : p.1 = k
    · simp [dictSet, beq_iff_eq, if_pos hp]
    · simp only [dictGet, beq_iff_eq, if_neg hp] at h
      simp [dictSet, beq_iff_eq, if_neg hp, ih h]

/-! Claim theorems. -/

/-- C1 counterexample: the string consisting of a, the at sign, b, a dot, c
and a trailing newline does not decompose as the claimed pattern — its last
character is whitespace — yet constructing a User with it succeeds, because
the dollar anchor of the re module also matches just before a newline that
ends the string.  So a string outside the claimed pattern can pass
validation. -/
theorem c1_counterexample :
    ¬ EmailShape (String.data "a@b.c\n") ∧
    User.make 1 "Ann" "a@b.c\n" UserRole.USER [] (DateTime.mk "2024-01-01T00:00:00") =
      Except.ok (User.mk 1 "Ann" "a@b.c\n" UserRole.USER []
        (DateTime.mk "2024-01-01T00:00:00")) := by
  constructor
  · intro h
    exact absurd ((matchCore_iff (String.data "a@b.c\n")).mpr h) (by decide)
  · rfl

/-- C1 (amended): constructing a User fails with ValueError for every email
string such that neither the string itself nor the string with one trailing
newline removed decomposes as one or more non-space non-at characters, an
at sign, one or more non-space non-at characters, a dot, and one or more
non-space non-at characters. -/
theorem c1_theorem (id : Int) (name email : String) (role : UserRole)
    (metadata : List (String × PyValue)) (created_at : DateTime)
    (h1 : ¬ EmailShape email.data)
    (h2 : ¬ (email.data.getLast? = some '\n' ∧ EmailShape email.data.dropLast)) :
    User.make id name email role metadata created_at =
      Except.error ("Invalid email: " ++ email) := by
  have hv : User._is_valid_email email = false := by
    cases hb : User._is_valid_email email
    · rfl
    · rcases (valid_email_iff email).mp hb with h | h
      · exact absurd h h1
      · exact absurd h h2
  simp [User.make, User.__post_init__, hv]

/-- C1 witness: a string with no at sign is rejected. -/
theorem c1_witness :
    User.make 1 "Ann" "no-at-sign" UserRole.USER [] (DateTime.mk "t") =
      Except.error ("Invalid email: " ++ "no-at-sign") :=
  c1_theorem 1 "Ann" "no-at-sign" UserRole.USER [] (DateTime.mk "t")
    (fun h => absurd ((matchCore_iff (String.data "no-at-sign")).mpr h) (by decide))
    (fun h => absurd h.1 (by decide))

/-- C2: for every id, name and email accepted by the validation regex,
construction succeeds with exactly the given fields, and the dictionary
conversion round-trips them: the id, name and email entries are the given
values, the role entry is the role's name, and the created_at entry is the
ISO rendering of the creation timestamp. -/
theorem c2_theorem (id : Int) (name email : String) (role : UserRole)
    (metadata : List (String × PyValue)) (created_at : DateTime)
    (h : User._is_valid_email email = true) :
    User.make id name email role metadata created_at =
      Except.ok (User.mk id name email role metadata created_at) ∧
    ((User.mk id name email role metadata created_at).to_dict.lookup "id" =
        some (PyValue.pyInt id) ∧
     (User.mk id name email role metadata created_at).to_dict.lookup "name" =
        some (PyValue.pyStr name) ∧
     (User.mk id name email role metadata created_at).to_dict.lookup "email" =
        some (PyValue.pyStr email) ∧
     (User.mk id name email role metadata created_at).to_dict.lookup "role" =
        some (PyValue.pyStr role.name) ∧
     (User.mk id name email role metadata created_at).to_dict.lookup "created_at" =
        some (PyValue.pyStr created_at.isoformat)) := by
  refine ⟨?_, rfl, rfl, rfl, rfl, rfl⟩
  simp [User.make, User.__post_init__, h]

/-- C2 witness: a concrete well-formed construction and its dictionary. -/
theorem c2_witness :
    User.make 7 "Alice" "alice@example.com" UserRole.ADMIN []
        (DateTime.mk "2024-05-01T12:00:00") =
      Except.ok (User.mk 7 "Alice" "alice@example.com" UserRole.ADMIN []
        (DateTime.mk "2024-05-01T12:00:00")) ∧
    ((User.mk 7 "Alice" "alice@example.com" UserRole.ADMIN []
        (DateTime.mk "2024-05-01T12:00:00")).to_dict.lookup "id" =
        some (PyValue.pyInt 7) ∧
     (User.mk 7 "Alice" "alice@example.com" UserRole.ADMIN []
        (DateTime.mk "2024-05-01T12:00:00")).to_dict.lookup "name" =
        some (PyValue.pyStr "Alice") ∧
     (User.mk 7 "Alice" "alice@example.com" UserRole.ADMIN []
        (DateTime.mk "2024-05-01T12:00:00")).to_dict.lookup "email" =
        some (PyValue.pyStr "alice@example.com") ∧
     (User.mk 7 "Alice" "alice@example.com" UserRole.ADMIN []
        (DateTime.mk "2024-05-01T12:00:00")).to_dict.lookup "role" =
        some (PyValue.pyStr (UserRole.name UserRole.ADMIN)) ∧
     (User.mk 7 "Alice" "alice@example.com" UserRole.ADMIN []
        (DateTime.mk "2024-05-01T12:00:00")).to_dict.lookup "created_at" =
        some (PyValue.pyStr (DateTime.isoformat (DateTime.mk "2024-05-01T12:00:00")))) :=
  c2_theorem 7 "Alice" "alice@example.com" UserRole.ADMIN []
    (DateTime.mk "2024-05-01T12:00:00") (by decide)

/-- C3: two successive cache lookups with the same identifier and no
intervening mutation return equal results — immediate because _get_cache is
a pure read of the state — and once fetch_by_id has returned a user, every
subsequent fetch_by_id with the same identifier returns that same user from
the cache with the state unchanged, whatever the simulated outcome and
clock of the second call, so no new user is constructed. -/
theorem c3_theorem (s : UserService) (id : Int) (ev : FetchEvent) (now : DateTime)
    (s' : UserService) (u : User) (log : List String)
    (h : UserService.fetch_by_id s id ev now = (s', some u, log)) :
    (∀ t : UserService, UserService._get_cache t id = UserService._get_cache t id) ∧
    ∀ (ev' : FetchEvent) (now' : DateTime),
      UserService.fetch_by_id s' id ev' now' = (s', some u, []) := by
  refine ⟨fun t => rfl, ?_⟩
  intro ev' now'
  cases hc : UserService._get_cache s id with
  | some cached =>
    simp only [UserService.fetch_by_id, hc, Prod.mk.injEq] at h
    obtain ⟨h1, h2, h3⟩ := h
    subst h1
    simp only [UserService.fetch_by_id, hc, h2]
  | none =>
    cases ev with
    | timeout => simp [UserService.fetch_by_id, hc] at h
    | failure e => simp [UserService.fetch_by_id, hc] at h
    | success =>
      cases hm : User.make id ("User " ++ toString id)
          ("user" ++ toString id ++ "@example.com") UserRole.USER [] now with
      | ok user =>
        simp only [UserService.fetch_by_id, hc, hm, Prod.mk.injEq] at h
        obtain ⟨h1, h2, h3⟩ := h
        subst h1
        have hu : user = u := Option.some.inj h2
        subst hu
        have hget : UserService._get_cache (UserService._set_cache s id user) id =
            some user := by
          simp only [UserService._get_cache, UserService._set_cache]
          exact dictGet_dictSet_self s.cache id user
        simp only [UserService.fetch_by_id, hget]
      | error e => simp [UserService.fetch_by_id, hc, hm] at h

/-- C3 witness: after a successful fetch of user 1 on a fresh service, a
second fetch returns the cached user unchanged even under a timeout
outcome. -/
theorem c3_witness :
    UserService.fetch_by_id
      (UserService.mk "/users"
        [(1, User.mk 1 "User 1" "user1@example.com" UserRole.USER [] (DateTime.mk "t"))])
      1 FetchEvent.timeout (DateTime.mk "u") =
      (UserService.mk "/users"
        [(1, User.mk 1 "User 1" "user1@example.com" UserRole.USER [] (DateTime.mk "t"))],
       some (User.mk 1 "User 1" "user1@example.com" UserRole.USER [] (DateTime.mk "t")),
       []) :=
  (c3_theorem UserService.init 1 FetchEvent.success (DateTime.mk "t")
      (UserService.mk "/users"
        [(1, User.mk 1 "User 1" "user1@example.com" UserRole.USER [] (DateTime.mk "t"))])
      (User.mk 1 "User 1" "user1@example.com" UserRole.USER [] (DateTime.mk "t")) []
      rfl).2
    FetchEvent.timeout (DateTime.mk "u")

/-- C4: on a cache miss, a simulated timeout and any other raised exception
are both converted to a None result with the state unchanged, and the
method prints the corresponding console line instead of propagating. -/
theorem c4_theorem (s : UserService) (id : Int) (now : DateTime) (msg : String)
    (h : UserService._get_cache s id = none) :
    UserService.fetch_by_id s id FetchEvent.timeout now =
      (s, none, ["Timeout fetching user " ++ toString id]) ∧
    UserService.fetch_by_id s id (FetchEvent.failure msg) now =
      (s, none, ["Error fetching user " ++ toString id ++ ": " ++ msg]) := by
  constructor <;> simp [UserService.fetch_by_id, h]

/-- C4 witness: timeout and failure on an empty cache at id 5. -/
theorem c4_witness :
    UserService.fetch_by_id UserService.init 5 FetchEvent.timeout (DateTime.mk "t") =
      (UserService.init, none, ["Timeout fetching user " ++ toString (5 : Int)]) ∧
    UserService.fetch_by_id UserService.init 5 (FetchEvent.failure "boom") (DateTime.mk "t") =
      (UserService.init, none,
        ["Error fetching user " ++ toString (5 : Int) ++ ": " ++ "boom"]) :=
  c4_theorem UserService.init 5 (DateTime.mk "t") "boom" rfl

/-- C5: a call to the debounced wrapper strictly less than delay seconds
after the recorded last call returns None with the state unchanged and the
wrapped function not run, while a call at or after delay seconds runs the
wrapped function, records the call time and returns its result. -/
theorem c5_theorem {α β : Type} (delay : Rat) (f : α → β) (st : DebounceState)
    (now : Rat) (x : α) :
    (now - st.last_call < delay → debounce_call delay f st now x = (st, none)) ∧
    (delay ≤ now - st.last_call →
      debounce_call delay f st now x = ({ last_call := now }, some (f x))) := by
  constructor
  · intro h
    rw [debounce_call, if_neg (not_le.mpr h)]
  · intro h
    rw [debounce_call, if_pos h]

/-- C5 witness: with a delay of one second, a call half a second after the
last one is suppressed, and a call two seconds after runs the function. -/
theorem c5_witness :
    debounce_call 1 (fun _ : Unit => (7 : Int)) (DebounceState.mk 0) (1/2) () =
      (DebounceState.mk 0, none) ∧
    debounce_call 1 (fun _ : Unit => (7 : Int)) (DebounceState.mk 0) 2 () =
      (DebounceState.mk 2, some 7) :=
  ⟨(c5_theorem 1 (fun _ : Unit => (7 : Int)) (DebounceState.mk 0) (1/2) ()).1 (by norm_num),
   (c5_theorem 1 (fun _ : Unit => (7 : Int)) (DebounceState.mk 0) 2 ()).2 (by norm_num)⟩

/-- C6: the cache never loses a key: every identifier present in the cache
stays present after any sequence of service operations (values may be
overwritten, keys are never removed). -/
theorem c6_theorem (ops : List ServiceOp) (s : UserService) (k : Int)
    (h : k ∈ dictKeys s.cache) : k ∈ dictKeys (applyOps s ops).cache := by
  have step : ∀ (t : UserService) (op : ServiceOp),
      k ∈ dictKeys t.cache → k ∈ dictKeys (applyOp t op).cache := by
    intro t op ht
    cases op with
    | opGetCache i => exact ht
    | opSetCache i u =>
      simp only [applyOp, UserService._set_cache]
      exact (dictKeys_dictSet_iff t.cache i k u).mpr (Or.inl ht)
    | opFetch i ev now =>
      cases hc : UserService._get_cache t i with
      | some cached => simpa [applyOp, UserService.fetch_by_id, hc] using ht
      | none =>
        cases ev with
        | timeout => simpa [applyOp, UserService.fetch_by_id, hc] using ht
        | failure e => simpa [applyOp, UserService.fetch_by_id, hc] using ht
        | success =>
          cases hm : User.make i ("User " ++ toString i)
              ("user" ++ toString i ++ "@example.com") UserRole.USER [] now with
          | ok user =>
            simp only [applyOp, UserService.fetch_by_id, hc, hm, UserService._set_cache]
            exact (dictKeys_dictSet_iff t.cache i k user).mpr (Or.inl ht)
          | error e => simpa [applyOp, UserService.fetch_by_id, hc, hm] using ht
    | opCreate nm em r now =>
      cases hm : User.make ((t.cache.length : Int) + 1) nm em r [] now with
      | ok user =>
        simp only [applyOp, UserService.create_user, hm, UserService._set_cache]
        exact (dictKeys_dictSet_iff t.cache ((t.cache.length : Int) + 1) k user).mpr
          (Or.inl ht)
      | error e => simpa [applyOp, UserService.create_user, hm] using ht
    | opGetByRole r => exact ht
  have main : ∀ (l : List ServiceOp) (t : UserService),
      k ∈ dictKeys t.cache → k ∈ dictKeys (applyOps t l).cache := by
    intro l
    induction l with
    | nil => intro t ht; exact ht
    | cons op rest ih => intro t ht; exact ih (applyOp t op) (step t op ht)
  exact main ops s h

/-- C6 witness: key 1 survives a set, a create, a successful fetch of
another id and a role read. -/
theorem c6_witness :
    (1 : Int) ∈ dictKeys (applyOps
      (UserService.mk "/users"
        [(1, User.mk 1 "User 1" "user1@example.com" UserRole.USER [] (DateTime.mk "t"))])
      [ServiceOp.opSetCache 1
        (User.mk 1 "Ann" "ann@example.com" UserRole.ADMIN [] (DateTime.mk "t1")),
       ServiceOp.opCreate "Bob" "bob@example.com" UserRole.USER (DateTime.mk "t2"),
       ServiceOp.opFetch 9 FetchEvent.success (DateTime.mk "t3"),
       ServiceOp.opGetByRole UserRole.ADMIN]).cache :=
  c6_theorem
    [ServiceOp.opSetCache 1
      (User.mk 1 "Ann" "ann@example.com" UserRole.ADMIN [] (DateTime.mk "t1")),
     ServiceOp.opCreate "Bob" "bob@example.com" UserRole.USER (DateTime.mk "t2"),
     ServiceOp.opFetch 9 FetchEvent.success (DateTime.mk "t3"),
     ServiceOp.opGetByRole UserRole.ADMIN]
    (UserService.mk "/users"
      [(1, User.mk 1 "User 1" "user1@example.com" UserRole.USER [] (DateTime.mk "t"))])
    1 (by decide)

/-- C7: entering the context prints one line and returns the very same
object, whose _connection attribute is still None after construction, and
leaving the context prints one line and returns False for every exception
triple, so exceptions are never suppressed. -/
theorem c7_theorem (connection_string : String) (d : DatabaseConnection)
    (exc_type exc_val exc_tb : Option String) :
    DatabaseConnection.__aenter__ d = (d, ["Connecting to " ++ d.connection_string]) ∧
    (DatabaseConnection.init connection_string)._connection = none ∧
    DatabaseConnection.__aexit__ d exc_type exc_val exc_tb =
      (false, ["Closing database connection"]) :=
  ⟨rfl, rfl, rfl⟩

/-- C8: create_user with a malformed email raises ValueError and leaves the
cache untouched: no partially constructed user is stored. -/
theorem c8_theorem (s : UserService) (name email : String) (role : UserRole)
    (now : DateTime) (h : User._is_valid_email email = false) :
    UserService.create_user s name email role now =
      Except.error ("Invalid email: " ++ email) ∧
    applyOp s (ServiceOp.opCreate name email role now) = s := by
  have hm : User.make ((s.cache.length : Int) + 1) name email role [] now =
      Except.error ("Invalid email: " ++ email) := by
    simp [User.make, User.__post_init__, h]
  constructor
  · simp [UserService.create_user, hm]
  · simp [applyOp, UserService.create_user, hm]

/-- C8 witness: creating a user with a malformed email on a fresh service
raises and leaves the service unchanged. -/
theorem c8_witness :
    UserService.create_user UserService.init "Eve" "oops" UserRole.USER (DateTime.mk "t") =
      Except.error ("Invalid email: " ++ "oops") ∧
    applyOp UserService.init
      (ServiceOp.opCreate "Eve" "oops" UserRole.USER (DateTime.mk "t")) = UserService.init :=
  c8_theorem UserService.init "Eve" "oops" UserRole.USER (DateTime.mk "t") (by decide)

/-- Invariant of a cache populated only by create_user calls: exactly n
entries, all of whose keys lie between 1 and n. -/
def FreshInv (n : Nat) (s : UserService) : Prop :=
  s.cache.length = n ∧ ∀ k ∈ dictKeys s.cache, 1 ≤ k ∧ k ≤ (n : Int)

theorem create_step (s : UserService) (n : Nat) (c : Creation)
    (hv : User._is_valid_email c.cemail = true) (hinv : FreshInv n s) :
    UserService.create_user s c.cname c.cemail c.crole c.ctime =
      Except.ok
        (UserService._set_cache s ((n : Int) + 1)
          (User.mk ((n : Int) + 1) c.cname c.cemail c.crole [] c.ctime),
         User.mk ((n : Int) + 1) c.cname c.cemail c.crole [] c.ctime) ∧
    FreshInv (n + 1)
      (UserService._set_cache s ((n : Int) + 1)
        (User.mk ((n : Int) + 1) c.cname c.cemail c.crole [] c.ctime)) := by
  obtain ⟨hlen, hbound⟩ := hinv
  subst hlen
  have hmk : User.make ((s.cache.length : Int) + 1) c.cname c.cemail c.crole [] c.ctime =
      Except.ok (User.mk ((s.cache.length : Int) + 1) c.cname c.cemail c.crole []
        c.ctime) := by
    simp [User.make, User.__post_init__, hv]
  have hnone : dictGet s.cache ((s.cache.length : Int) + 1) = none := by
    refine (dictGet_eq_none_iff s.cache ((s.cache.length : Int) + 1)).mpr ?_
    intro hmem
    have := hbound _ hmem
    omega
  refine ⟨?_, ?_, ?_⟩
  · simp [UserService.create_user, hmk]
  · simp only [UserService._set_cache]
    exact dictSet_length_of_none s.cache ((s.cache.length : Int) + 1) _ hnone
  · intro k hk
    simp only [UserService._set_cache] at hk
    rcases (dictKeys_dictSet_iff s.cache ((s.cache.length : Int) + 1) k _).mp hk with
      hmem | hEq
    · have := hbound _ hmem
      constructor
      · omega
      · push_cast
        omega
    · constructor
      · omega
      · push_cast
        omega

theorem runCreates_spec (cs : List Creation) :
    ∀ (s : UserService) (n : Nat), FreshInv n s →
      (∀ c ∈ cs, User._is_valid_email c.cemail = true) →
      (runCreates s cs).2.length = cs.length ∧
      (∀ i, i < cs.length → ∃ u : User,
        (runCreates s cs).2.get? i = some (Except.ok u) ∧
        u.id = (n : Int) + (i : Int) + 1) ∧
      FreshInv (n + cs.length) (runCreates s cs).1 := by
  induction cs with
  | nil =>
    intro s n hinv hval
    refine ⟨rfl, ?_, ?_⟩
    · intro i hi
      exact absurd hi (by simp)
    · simpa [runCreates] using hinv
  | cons c rest ih =>
    intro s n hinv hval
    obtain ⟨hcreate, hinv'⟩ := create_step s n c (hval c (List.mem_cons_self c rest)) hinv
    obtain ⟨hlen, hall, hinvf⟩ :=
      ih (UserService._set_cache s ((n : Int) + 1)
          (User.mk ((n : Int) + 1) c.cname c.cemail c.crole [] c.ctime)) (n + 1) hinv'
        (fun c' hc' => hval c' (List.mem_cons_of_mem c hc'))
    refine ⟨?_, ?_, ?_⟩
    · simp only [runCreates, hcreate, List.length_cons]
      simpa using hlen
    · intro i hi
      simp only [runCreates, hcreate]
      cases i with
      | zero =>
        refine ⟨User.mk ((n : Int) + 1) c.cname c.cemail c.crole [] c.ctime, ?_, ?_⟩
        · simp
        · simp
      | succ j =>
        have hj : j < rest.length := by
          simp only [List.length_cons] at hi
          omega
        obtain ⟨u', hu', hid'⟩ := hall j hj
        refine ⟨u', ?_, ?_⟩
        · simpa using hu'
        · rw [hid']
          push_cast
          ring
    · simp only [runCreates, hcreate]
      have e : n + (c :: rest).length = (n + 1) + rest.length := by
        simp only [List.length_cons]
        omega
      rw [e]
      exact hinvf

/-- C9: on a fresh service where only create_user is called with well-formed
emails, the i-th created user (counting from zero) gets the identifier
i + 1, so all assigned identifiers are distinct; and in general create_user
assigns the identifier len(cache) + 1, stores the new user under that key,
and when that key is already present — as after a prior fetch_by_id of that
id — the existing entry is overwritten in place, the cache not growing. -/
theorem c9_theorem (cs : List Creation)
    (hval : ∀ c ∈ cs, User._is_valid_email c.cemail = true)
    (s : UserService) (name email : String) (role : UserRole) (now : DateTime)
    (u₀ : User) (hv : User._is_valid_email email = true)
    (hmem : dictGet s.cache ((s.cache.length : Int) + 1) = some u₀) :
    (∀ i, i < cs.length → ∃ u : User,
      (runCreates UserService.init cs).2.get? i = some (Except.ok u) ∧
      u.id = (i : Int) + 1) ∧
    (∀ (i j : Nat) (u v : User),
      (runCreates UserService.init cs).2.get? i = some (Except.ok u) →
      (runCreates UserService.init cs).2.get? j = some (Except.ok v) →
      u.id = v.id → i = j) ∧
    (∃ u : User,
      UserService.create_user s name email role now =
        Except.ok (UserService._set_cache s ((s.cache.length : Int) + 1) u, u) ∧
      u.id = (s.cache.length : Int) + 1 ∧
      dictGet (UserService._set_cache s ((s.cache.length : Int) + 1) u).cache
        ((s.cache.length : Int) + 1) = some u ∧
      (UserService._set_cache s ((s.cache.length : Int) + 1) u).cache.length =
        s.cache.length) := by
  have hfresh : FreshInv 0 UserService.init := by
    constructor
    · rfl
    · intro k hk
      simp [UserService.init, dictKeys] at hk
  obtain ⟨hlen, hall, -⟩ := runCreates_spec cs UserService.init 0 hfresh hval
  refine ⟨?_, ?_, ?_⟩
  · intro i hi
    obtain ⟨u, hu, hid⟩ := hall i hi
    refine ⟨u, hu, ?_⟩
    rw [hid]
    push_cast
    ring
  · intro i j u v hu hv2 hid
    have hi : i < cs.length := by
      by_contra hni
      rw [List.get?_eq_none.mpr (by omega)] at hu
      exact Option.noConfusion hu
    have hj : j < cs.length := by
      by_contra hnj
      rw [List.get?_eq_none.mpr (by omega)] at hv2
      exact Option.noConfusion hv2
    obtain ⟨u', hu', hidu⟩ := hall i hi
    obtain ⟨v', hv', hidv⟩ := hall j hj
    rw [hu] at hu'
    rw [hv2] at hv'
    have eu : u = u' := Except.ok.inj (Option.some.inj hu')
    have ev : v = v' := Except.ok.inj (Option.some.inj hv')
    rw [eu, hidu, ev, hidv] at hid
    omega
  · have hmk : User.make ((s.cache.length : Int) + 1) name email role [] now =
        Except.ok (User.mk ((s.cache.length : Int) + 1) name email role [] now) := by
      simp [User.make, User.__post_init__, hv]
    refine ⟨User.mk ((s.cache.length : Int) + 1) name email role [] now, ?_, rfl, ?_, ?_⟩
    · simp [UserService.create_user, hmk]
    · simp only [UserService._set_cache]
      exact dictGet_dictSet_self s.cache ((s.cache.length : Int) + 1) _
    · simp only [UserService._set_cache]
      exact dictSet_length_of_some s.cache ((s.cache.length : Int) + 1) _ u₀ hmem

/-- C9 witness: with two fresh creations the second created user has
identifier two, under hypotheses carrying a service whose cache already
holds an entry at key length-plus-one. -/
theorem c9_witness :
    ∃ u : User,
      (runCreates UserService.init
        [Creation.mk "Alice" "alice@example.com" UserRole.ADMIN (DateTime.mk "t1"),
         Creation.mk "Bob" "bob@example.com" UserRole.USER (DateTime.mk "t2")]).2.get? 1 =
        some (Except.ok u) ∧ u.id = ((1 : Nat) : Int) + 1 :=
  (c9_theorem
    [Creation.mk "Alice" "alice@example.com" UserRole.ADMIN (DateTime.mk "t1"),
     Creation.mk "Bob" "bob@example.com" UserRole.USER (DateTime.mk "t2")]
    (by decide)
    (UserService.mk "/users"
      [(2, User.mk 2 "User 2" "user2@example.com" UserRole.USER [] (DateTime.mk "t0"))])
    "Dana" "dana@example.com" UserRole.USER (DateTime.mk "t3")
    (User.mk 2 "User 2" "user2@example.com" UserRole.USER [] (DateTime.mk "t0"))
    (by decide) (by decide)).1 1 (by decide)

/-- C10: get_users_by_role returns exactly the cached users whose role
equals the given role — stated both as the propositional filter of the
cache's values and as a membership characterisation — and the result is a
sublist of the cache's values, so it keeps their insertion order; the
function reads the state and returns only a list, so the cache is not
modified. -/
theorem c10_theorem (s : UserService) (role : UserRole) :
    UserService.get_users_by_role s role =
      List.filter (fun u => decide (u.role = role)) (List.map Prod.snd s.cache) ∧
    (∀ u : User, u ∈ UserService.get_users_by_role s role ↔
      (u ∈ List.map Prod.snd s.cache ∧ u.role = role)) ∧
    List.Sublist (UserService.get_users_by_role s role) (List.map Prod.snd s.cache) := by
  refine ⟨?_, ?_, ?_⟩
  · simp only [UserService.get_users_by_role]
    apply List.filter_congr
    intro u hu
    rfl
  · intro u
    simp [UserService.get_users_by_role, List.mem_filter, beq_iff_eq]
  · exact List.filter_sublist _

end Sample
